import Mathlib

/-!
# whatmatters: RSS exploit filter, link scraper and extension sniffer

A shallow embedding of the pure parts of `whatmatters.go` (download mode) and
`vulns_report.go` (report mode).

* A Go `string` is a sequence of bytes; it is modelled as `List Nat`, one number per byte.
  `len`, `+`, `strings.Contains`, `strings.ReplaceAll` and `strings.Trim` act on bytes.
* Network and file-system effects are inputs: a fetched page is the list of `href`
  attributes of its anchors, a file is the bytes read from it (or a read error), and
  `time.Now()` is an explicit argument `now`.
* The functions of the Go standard library `time` that the code calls (`time.Parse`,
  `Time.AddDate`) and the Unicode branch of `strings.ToLower` are parameters of the
  functions that use them; `addDateUTC` is a concrete `AddDate` for the UTC location.
-/

namespace WhatMatters

/-! ## Strings -/

/-- A Go string: its bytes in order. -/
abbrev GoString := List Nat

/-- The bytes of an ASCII text literal. -/
def str (s : String) : GoString := s.toList.map Char.toNat

/-- The Go function `strings.Contains(s, substr)`: `substr` occurs in `s` as a contiguous
block of bytes. -/
def Contains : GoString → GoString → Bool
  | [], substr => substr.isEmpty
  | c :: t, substr => substr.isPrefixOf (c :: t) || Contains t substr

/-- Left-to-right scan of `strings.ReplaceAll`: the first argument counts the bytes of an
occurrence of `old` still to be skipped. -/
def replaceFrom (old new : GoString) : Nat → GoString → GoString
  | _, [] => []
  | k + 1, _ :: t => replaceFrom old new k t
  | 0, c :: t =>
    if old.isPrefixOf (c :: t) then new ++ replaceFrom old new (old.length - 1) t
    else c :: replaceFrom old new 0 t

/-- The Go function `strings.ReplaceAll(s, old, new)` for a non-empty `old` (both call sites
pass a non-empty literal): every non-overlapping occurrence of `old`, found from the left,
is replaced by `new`. -/
def ReplaceAll (s old new : GoString) : GoString := replaceFrom old new 0 s

/-- Bytes outside the negated class of the pattern `[^a-zA-Z0-9]+`. -/
def isAlnum (c : Nat) : Bool :=
  (97 ≤ c && c ≤ 122) || (65 ≤ c && c ≤ 90) || (48 ≤ c && c ≤ 57)

/-- Scan of `ReplaceAllString` for the pattern `[^a-zA-Z0-9]+` and the replacement `"_"`;
the flag tells that the scan is inside a run that has already been replaced. A byte of a
non-ASCII or invalid UTF-8 sequence is never alphanumeric, so a maximal run of
non-matching runes is a maximal run of non-alphanumeric bytes. -/
def replaceRuns : Bool → GoString → GoString
  | _, [] => []
  | inRun, c :: t =>
    if isAlnum c then c :: replaceRuns false t
    else if inRun then replaceRuns true t
    else 95 :: replaceRuns true t

/-- The call `reg.ReplaceAllString(title, "_")` with `reg = [^a-zA-Z0-9]+`: every maximal
run of non-alphanumeric bytes becomes one underscore (byte 95). -/
def ReplaceAllString (s : GoString) : GoString := replaceRuns false s

/-- The Go function `strings.Trim(s, cutset)` for a cutset of one ASCII byte `c`: leading
and trailing bytes equal to `c` are removed. -/
def Trim (s : GoString) (c : Nat) : GoString :=
  (s.dropWhile (· == c)).rdropWhile (· == c)

/-- Lower-casing of one ASCII byte. -/
def lowerByte (c : Nat) : Nat := if 65 ≤ c ∧ c ≤ 90 then c + 32 else c

/-- The Go function `strings.ToLower`: a string of ASCII bytes only is lower-cased byte by
byte (and returned unchanged when it has no upper-case letter); any other string goes
through `mapLower`, the library call `Map(unicode.ToLower, s)`. -/
def ToLower (mapLower : GoString → GoString) (s : GoString) : GoString :=
  let isASCII := s.all (fun c => c < 128)
  let hasUpper := s.any (fun c => 65 ≤ c && c ≤ 90)
  if isASCII then
    if !hasUpper then s else s.map lowerByte
  else mapLower s

/-! ## Time -/

/-- An instant, in nanoseconds since the Unix epoch. -/
structure Time where
  unixNano : Int
deriving DecidableEq, Repr

/-- The method `t.After(u)`: `t` is strictly later than `u`. -/
def Time.After (t u : Time) : Bool := decide (u.unixNano < t.unixNano)

/-- The method `t.Before(u)`: `t` is strictly earlier than `u`. -/
def Time.Before (t u : Time) : Bool := decide (t.unixNano < u.unixNano)

/-- The layout constant `time.RFC1123Z`. -/
def RFC1123Z : GoString := str "Mon, 02 Jan 2006 15:04:05 -0700"

/-- The layout constant `time.RFC1123`. -/
def RFC1123 : GoString := str "Mon, 02 Jan 2006 15:04:05 MST"

/-- Days from 1970-01-01 to the given day of the proleptic Gregorian calendar; a day number
outside the month carries over into the following (or preceding) months. -/
def daysFromCivil (y m d : Int) : Int :=
  let y := if m ≤ 2 then y - 1 else y
  let era := y / 400
  let yoe := y - era * 400
  let doy := (153 * (if m > 2 then m - 3 else m + 9) + 2) / 5 + d - 1
  let doe := yoe * 365 + yoe / 4 - yoe / 100 + doy
  era * 146097 + doe - 719468

/-- Year, month and day of the day that lies `z` days after 1970-01-01. -/
def civilFromDays (z : Int) : Int × Int × Int :=
  let z := z + 719468
  let era := z / 146097
  let doe := z - era * 146097
  let yoe := (doe - doe / 1460 + doe / 36524 - doe / 146096) / 365
  let y := yoe + era * 400
  let doy := doe - (365 * yoe + yoe / 4 - yoe / 100)
  let mp := (5 * doy + 2) / 153
  let d := doy - (153 * mp + 2) / 5 + 1
  let m := if mp < 10 then mp + 3 else mp - 9
  (if m ≤ 2 then y + 1 else y, m, d)

/-- Nanoseconds in a day. -/
def nanosPerDay : Int := 86400000000000

/-- The method `t.AddDate(years, months, days)` for a time in the UTC location: the
calendar date is shifted, the month is normalised into 1..12 with a carry into the year,
a day past the end of the month carries over, and the time of day is kept. -/
def addDateUTC (t : Time) (years months days : Int) : Time :=
  let day := t.unixNano / nanosPerDay
  let rest := t.unixNano % nanosPerDay
  let (y, m, d) := civilFromDays day
  let m0 := m - 1 + months
  let y1 := y + years + m0 / 12
  let m1 := m0 % 12 + 1
  ⟨(daysFromCivil y1 m1 1 + (d + days - 1)) * nanosPerDay + rest⟩

/-- Midnight UTC of a calendar day. -/
def utcDate (y m d : Int) : Time := ⟨daysFromCivil y m d * nanosPerDay⟩

/-- A `time.Parse` given by a finite table of (layout, value, result) rows: a value parses
under a layout exactly when the table has a row for the pair. -/
def parseTable (rows : List (GoString × GoString × Time)) (layout value : GoString) :
    Option Time :=
  (rows.find? (fun r => r.1 == layout && r.2.1 == value)).map (fun r => r.2.2)

/-! ## Feed items -/

/-- The fields of `gofeed.Item` that the program reads. `PublishedParsed` is a pointer in
Go; `none` is `nil`. -/
structure Item where
  Title : GoString
  Description : GoString
  Link : GoString
  Published : GoString
  PublishedParsed : Option Time
deriving DecidableEq, Repr

/-- One row of the report (`Description` is a `template.HTML`, that is, a string). -/
structure Vulnerability where
  Title : GoString
  Description : GoString
  Link : GoString
deriving DecidableEq, Repr

/-! ## Download mode (`whatmatters.go`) -/

/-- The variable `rceKeywords` (`whatmatters.go`, line 25). -/
def rceKeywords : List GoString := [str "RCE", str "Remote Code Execution"]

/-- The constant `exploitDBBaseURL` (`whatmatters.go`, line 28). -/
def exploitDBBaseURL : GoString := str "https://www.exploit-db.com"

/-- The constant `packetStormBaseURL` (`whatmatters.go`, line 29). -/
def packetStormBaseURL : GoString := str "https://packetstormsecurity.com"

/-- The function `cleanTitleForFileName` (`whatmatters.go`, lines 43-56): both phrases are
removed, every run of non-alphanumeric bytes becomes one underscore, and underscores at
both ends are trimmed. -/
def cleanTitleForFileName (title : GoString) : GoString :=
  let title := ReplaceAll title (str "Remote Code Execution") (str "")
  let title := ReplaceAll title (str "(RCE)") (str "")
  let cleanTitle := ReplaceAllString title
  let cleanTitle := Trim cleanTitle 95
  cleanTitle

/-- The function `isRCEEntry` (`whatmatters.go`, lines 59-67): the loop over `rceKeywords`
returns `true` at the first keyword found in the lower-cased title or description. -/
def isRCEEntry (mapLower : GoString → GoString) (entry : Item) : Bool :=
  rceKeywords.any (fun keyword =>
    Contains (ToLower mapLower entry.Title) (ToLower mapLower keyword)
      || Contains (ToLower mapLower entry.Description) (ToLower mapLower keyword))

/-- The callback of `doc.Find("a").Each` shared by both extractors: the anchors are given
by their `href` attribute in document order (`none` when the attribute is absent), and
`links` is the slice built so far. -/
def scanAnchors (fragment baseURL : GoString) :
    List (Option GoString) → List GoString → List GoString
  | [], links => links
  | none :: rest, links => scanAnchors fragment baseURL rest links
  | some href :: rest, links =>
    if Contains href fragment then
      let fullURL := baseURL ++ href
      scanAnchors fragment baseURL rest (links ++ [fullURL])
    else scanAnchors fragment baseURL rest links

/-- The function `extractExploitDBLink` (`whatmatters.go`, lines 70-100); the page is
`none` when fetching or parsing it failed. -/
def extractExploitDBLink (page : Option (List (Option GoString))) : List GoString :=
  match page with
  | none => []
  | some anchors => scanAnchors (str "/download/") exploitDBBaseURL anchors []

/-- The function `extractPacketStormLink` (`whatmatters.go`, lines 103-133); the page is
`none` when fetching or parsing it failed. -/
def extractPacketStormLink (page : Option (List (Option GoString))) : List GoString :=
  match page with
  | none => []
  | some anchors => scanAnchors (str "/files/download/") packetStormBaseURL anchors []

/-- The function `determineFileExtension` (`whatmatters.go`, lines 136-160); the file is
`none` when `ioutil.ReadFile` returned an error. -/
def determineFileExtension (file : Option GoString) : GoString :=
  match file with
  | none => str ".txt"
  | some fileContent =>
    if Contains fileContent (str "import ") && Contains fileContent (str "def ") then
      str ".py"
    else if Contains fileContent (str "#include")
        && Contains fileContent (str "int main") then
      str ".c"
    else if Contains fileContent (str "package main")
        || Contains fileContent (str "func main") then
      str ".go"
    else if Contains fileContent (str "#!/bin/bash") || Contains fileContent (str "bash") then
      str ".sh"
    else if Contains fileContent (str "#!/usr/bin/perl") then
      str ".pl"
    else str ".txt"

/-- The function `isFromLastTwelveMonths` (`whatmatters.go`, lines 201-219). The arguments
`parse` and `addDate` are `time.Parse` and `Time.AddDate`; `now` is the value of
`time.Now()`. -/
def isFromLastTwelveMonths (parse : GoString → GoString → Option Time)
    (addDate : Time → Int → Int → Int → Time) (now : Time) (entry : Item) : Bool :=
  let twelveMonthsAgo := addDate now 0 (-12) 0
  match parse RFC1123Z entry.Published with
  | some publishDate => publishDate.After twelveMonthsAgo && publishDate.Before now
  | none =>
    match parse RFC1123 entry.Published with
    | none => false
    | some publishDate => publishDate.After twelveMonthsAgo && publishDate.Before now

/-! ## Report mode (`vulns_report.go`) -/

/-- The fallback text of `getDetailedDescription` (`vulns_report.go`, line 85). -/
def fallbackDescription : GoString :=
  str "No detailed description available. For more information, visit the full exploit entry."

/-- The value of ``fmt.Sprintf(`<br><a href="%s" target="_blank">Read more</a>`, link)``. -/
def readMoreAnchor (link : GoString) : GoString :=
  str "<br><a href=\"" ++ link ++ str "\" target=\"_blank\">Read more</a>"

/-- The function `getDetailedDescription` (`vulns_report.go`, lines 74-89): the anchor is
appended first, the length test comes after it. -/
def getDetailedDescription (item : Item) : GoString :=
  let description := item.Description
  let description :=
    if item.Link ≠ str "" then description ++ readMoreAnchor item.Link else description
  let description :=
    if description.length < 50 then fallbackDescription else description
  description

/-- The loop over `feed.Items` in `fetchExploits`; `vulnerabilities` is the slice built
so far. -/
def fetchLoop (mapLower : GoString → GoString) (oneYearAgo : Time) :
    List Item → List Vulnerability → List Vulnerability
  | [], vulnerabilities => vulnerabilities
  | item :: rest, vulnerabilities =>
    if (match item.PublishedParsed with
        | none => false
        | some published => published.After oneYearAgo) then
      if Contains (ToLower mapLower item.Title) (str "remote code execution")
          || Contains (ToLower mapLower item.Description) (str "rce") then
        let description := getDetailedDescription item
        let vuln : Vulnerability :=
          { Title := item.Title, Description := description, Link := item.Link }
        fetchLoop mapLower oneYearAgo rest (vulnerabilities ++ [vuln])
      else fetchLoop mapLower oneYearAgo rest vulnerabilities
    else fetchLoop mapLower oneYearAgo rest vulnerabilities

/-- The function `fetchExploits` (`vulns_report.go`, lines 44-71). The feed is `none` when
`fp.ParseURL` failed; the program then stops in `log.Fatalf`, which is the result `none`. -/
def fetchExploits (mapLower : GoString → GoString)
    (addDate : Time → Int → Int → Int → Time) (now : Time) (feed : Option (List Item)) :
    Option (List Vulnerability) :=
  match feed with
  | none => none
  | some items =>
    let oneYearAgo := addDate now (-1) 0 0
    some (fetchLoop mapLower oneYearAgo items [])

/-! ## Vocabulary of the statements and sample inputs -/

/-- A byte of the class `[A-Za-z0-9_]`. -/
def isWord (c : Nat) : Prop :=
  (48 ≤ c ∧ c ≤ 57) ∨ (65 ≤ c ∧ c ≤ 90) ∨ (97 ≤ c ∧ c ≤ 122) ∨ c = 95

/-- No two neighbouring bytes are both underscores. -/
def NoDoubleUnderscore (s : GoString) : Prop :=
  List.Chain' (fun a b => ¬ (a = 95 ∧ b = 95)) s

/-- The markers of Python source. -/
abbrev PythonMarkers (content : GoString) : Prop :=
  str "import " <:+: content ∧ str "def " <:+: content

/-- The markers of C source. -/
abbrev CMarkers (content : GoString) : Prop :=
  str "#include" <:+: content ∧ str "int main" <:+: content

/-- The markers of Go source. -/
abbrev GoMarkers (content : GoString) : Prop :=
  str "package main" <:+: content ∨ str "func main" <:+: content

/-- The markers of a Bash script. -/
abbrev BashMarkers (content : GoString) : Prop :=
  str "#!/bin/bash" <:+: content ∨ str "bash" <:+: content

/-- The marker of a Perl script. -/
abbrev PerlMarkers (content : GoString) : Prop :=
  str "#!/usr/bin/perl" <:+: content

/-- An entry with the given `Published` string. -/
def sampleEntry (published : GoString) : Item :=
  { Title := str "Example RCE", Description := str "", Link := str "",
    Published := published, PublishedParsed := none }

/-- The condition under which the loop of `fetchExploits` keeps an item. -/
def reportKeeps (mapLower : GoString → GoString) (oneYearAgo : Time) (item : Item) : Prop :=
  (∃ published, item.PublishedParsed = some published ∧
      oneYearAgo.unixNano < published.unixNano) ∧
    (str "remote code execution" <:+: ToLower mapLower item.Title ∨
      str "rce" <:+: ToLower mapLower item.Description)

/-- The report row built from an item. -/
def reportRow (item : Item) : Vulnerability :=
  { Title := item.Title, Description := getDetailedDescription item, Link := item.Link }

/-- An item titled with the abbreviation only, published one month before `now`. -/
def abbreviatedItem : Item :=
  { Title := str "Apache Struts RCE", Description := str "Proof of concept",
    Link := str "https://www.exploit-db.com/exploits/51234",
    Published := str "Fri, 02 Oct 2026 00:00:00 +0000",
    PublishedParsed := some (utcDate 2026 10 2) }

/-- An item dated one month after `now`. -/
def futureItem : Item :=
  { Title := str "Nginx overflow", Description := str "Unauthenticated RCE",
    Link := str "https://www.exploit-db.com/exploits/51235",
    Published := str "Wed, 02 Dec 2026 00:00:00 +0000",
    PublishedParsed := some (utcDate 2026 12 2) }

/-- A feed item with a short description and a link. -/
def shortItem : Item :=
  { Title := str "Example Remote Code Execution Exploit", Description := str "Short description.",
    Link := str "https://www.exploit-db.com/exploits/51234",
    Published := str "Fri, 02 Oct 2026 00:00:00 +0000",
    PublishedParsed := some (utcDate 2026 10 2) }

/-! ## Facts about the string functions -/

theorem mem_of_isPrefixOf {old s : GoString} (h : old.isPrefixOf s = true) {b : Nat}
    (hb : b ∈ old) : b ∈ s := by
  have hp : old <+: s := List.isPrefixOf_iff_prefix.mp h
  exact hp.subset hb

theorem replaceFrom_absent (old new : GoString) (b : Nat) (hb : b ∈ old) :
    ∀ s : GoString, b ∉ s → replaceFrom old new 0 s = s := by
  intro s
  induction s with
  | nil => intro _; rfl
  | cons c t ih =>
    intro hs
    have hpre : old.isPrefixOf (c :: t) = false := by
      cases hq : old.isPrefixOf (c :: t) with
      | false => rfl
      | true => exact absurd (mem_of_isPrefixOf hq hb) hs
    have ht : b ∉ t := fun h => hs (List.mem_cons_of_mem c h)
    simp [replaceFrom, hpre, ih ht]

theorem isAlnum_iff (c : Nat) :
    isAlnum c = true ↔ (48 ≤ c ∧ c ≤ 57) ∨ (65 ≤ c ∧ c ≤ 90) ∨ (97 ≤ c ∧ c ≤ 122) := by
  simp only [isAlnum, Bool.or_eq_true, Bool.and_eq_true, decide_eq_true_eq]
  omega

theorem replaceRuns_word : ∀ (s : GoString) (b : Bool), ∀ c ∈ replaceRuns b s, isWord c := by
  intro s
  induction s with
  | nil => intro b c hc; simp [replaceRuns] at hc
  | cons a t ih =>
    intro b c hc
    unfold replaceRuns at hc
    by_cases ha : isAlnum a = true
    · simp only [ha, if_true, List.mem_cons] at hc
      rcases hc with rfl | hc
      · have := (isAlnum_iff c).mp ha
        unfold isWord; omega
      · exact ih false c hc
    · rw [if_neg ha] at hc
      cases b with
      | true => exact ih true c hc
      | false =>
        simp only [Bool.false_eq_true, if_false, List.mem_cons] at hc
        rcases hc with rfl | hc
        · exact Or.inr (Or.inr (Or.inr rfl))
        · exact ih true c hc

theorem Trim_within (s : GoString) (c : Nat) : Trim s c <:+: s :=
  List.IsInfix.trans ( List.rdropWhile_prefix _ _).isInfix (List.dropWhile_suffix _).isInfix

theorem Trim_head (s : GoString) (c : Nat) : (Trim s c).head? ≠ some c := by
  intro h
  have hp : Trim s c <+: s.dropWhile (· == c) := List.rdropWhile_prefix _ _
  obtain ⟨r, hr⟩ := hp
  cases hT : Trim s c with
  | nil => rw [hT] at h; simp at h
  | cons x xs =>
    rw [hT] at h hr
    simp only [List.head?_cons, Option.some.injEq] at h
    subst h
    have h0 := List.head?_dropWhile_not (· == x) s
    rw [← hr] at h0
    simp at h0

theorem Trim_getLast (s : GoString) (c : Nat) : (Trim s c).getLast? ≠ some c := by
  intro h
  cases hT : Trim s c with
  | nil => rw [hT] at h; simp at h
  | cons x xs =>
    have hne : (s.dropWhile (· == c)).rdropWhile (· == c) ≠ [] := by
      intro h0; unfold Trim at hT; rw [h0] at hT; cases hT
    have h1 := List.rdropWhile_last_not (· == c) (s.dropWhile (· == c)) hne
    have h2 : (Trim s c).getLast? = some (((s.dropWhile (· == c)).rdropWhile (· == c)).getLast hne) := by
      unfold Trim; exact List.getLast?_eq_getLast _ hne
    rw [h2] at h
    simp only [Option.some.injEq] at h
    rw [h] at h1
    simp at h1

theorem isAlnum_ne_underscore {c : Nat} (h : isAlnum c = true) : c ≠ 95 := by
  have := (isAlnum_iff c).mp h
  omega

theorem replaceRuns_noDouble : ∀ (s : GoString) (b : Bool),
    NoDoubleUnderscore (replaceRuns b s) ∧
      (b = true → (replaceRuns b s).head? ≠ some 95) := by
  intro s
  induction s with
  | nil => intro b; simp [replaceRuns, NoDoubleUnderscore]
  | cons a t ih =>
    intro b
    unfold replaceRuns
    by_cases ha : isAlnum a = true
    · rw [if_pos ha]
      refine ⟨?_, fun _ => by simpa using isAlnum_ne_underscore ha⟩
      unfold NoDoubleUnderscore
      rw [List.chain'_cons']
      exact ⟨fun y _ hy => isAlnum_ne_underscore ha hy.1, (ih false).1⟩
    · rw [if_neg ha]
      cases b with
      | true => simpa using ih true
      | false =>
        simp only [Bool.false_eq_true, if_false, false_implies, and_true]
        unfold NoDoubleUnderscore
        rw [List.chain'_cons']
        refine ⟨fun y hy hh => ?_, (ih true).1⟩
        have h2 := (ih true).2 rfl
        rw [Option.mem_def] at hy
        rw [hy] at h2
        exact h2 (by rw [hh.2])

theorem replaceRuns_fixed : ∀ (s : GoString) (b : Bool), (∀ c ∈ s, isWord c) →
    NoDoubleUnderscore s → (b = true → s.head? ≠ some 95) → replaceRuns b s = s := by
  intro s
  induction s with
  | nil => intro b _ _ _; rfl
  | cons a t ih =>
    intro b hw hd hb
    have hwt : ∀ c ∈ t, isWord c := fun c hc => hw c (List.mem_cons_of_mem a hc)
    unfold NoDoubleUnderscore at hd
    rw [List.chain'_cons'] at hd
    unfold replaceRuns
    by_cases ha : isAlnum a = true
    · rw [if_pos ha, ih false hwt hd.2 (by simp)]
    · rw [if_neg ha]
      have ha95 : a = 95 := by
        have h1 := hw a (List.mem_cons_self a t)
        have h2 := (isAlnum_iff a).not.mp ha
        unfold isWord at h1
        omega
      subst ha95
      cases b with
      | true => exact absurd rfl (hb rfl)
      | false =>
        simp only [Bool.false_eq_true, if_false]
        rw [ih true hwt hd.2]
        intro _ hh
        exact hd.1 95 (by rw [Option.mem_def]; exact hh) ⟨rfl, rfl⟩

theorem Trim_fixed (s : GoString) (c : Nat) (hh : s.head? ≠ some c)
    (hl : s.getLast? ≠ some c) : Trim s c = s := by
  have h1 : s.dropWhile (· == c) = s := by
    cases s with
    | nil => rfl
    | cons x xs =>
      have : x ≠ c := by intro h; exact hh (by simp [h])
      simp [List.dropWhile_cons, this]
  unfold Trim
  rw [h1, List.rdropWhile_eq_self_iff]
  intro hne hp
  apply hl
  rw [List.getLast?_eq_getLast _ hne]
  simpa using hp

theorem cleanTitle_word (title : GoString) : ∀ c ∈ cleanTitleForFileName title, isWord c := by
  intro c hc
  unfold cleanTitleForFileName at hc
  exact replaceRuns_word _ false c ((Trim_within _ 95).subset hc)

theorem cleanTitle_noDouble (title : GoString) :
    NoDoubleUnderscore (cleanTitleForFileName title) := by
  unfold cleanTitleForFileName NoDoubleUnderscore
  exact List.Chain'.infix (replaceRuns_noDouble _ false).1 (Trim_within _ 95)

/-- C1: for every title, `cleanTitleForFileName` returns a string whose bytes all lie in
`[A-Za-z0-9_]` and that neither begins nor ends with an underscore; in particular it holds
no slash, backslash, dot or space. -/
theorem cleanTitleForFileName_charset (title : GoString) :
    (∀ c ∈ cleanTitleForFileName title,
        (48 ≤ c ∧ c ≤ 57) ∨ (65 ≤ c ∧ c ≤ 90) ∨ (97 ≤ c ∧ c ≤ 122) ∨ c = 95) ∧
      (cleanTitleForFileName title).head? ≠ some 95 ∧
      (cleanTitleForFileName title).getLast? ≠ some 95 ∧
      (47 ∉ cleanTitleForFileName title ∧ 92 ∉ cleanTitleForFileName title ∧
        46 ∉ cleanTitleForFileName title ∧ 32 ∉ cleanTitleForFileName title) := by
  refine ⟨cleanTitle_word title, Trim_head _ 95, Trim_getLast _ 95, ?_, ?_, ?_, ?_⟩ <;>
  · intro h
    have := cleanTitle_word title _ h
    unfold isWord at this
    omega

/-- C1 at the input of the specification: `"Foo/Bar (RCE) Remote Code Execution!!"` is
cleaned to `"Foo_Bar"`, which satisfies the character-set property. -/
theorem cleanTitleForFileName_charset_witness :
    cleanTitleForFileName (str "Foo/Bar (RCE) Remote Code Execution!!") = str "Foo_Bar" ∧
      (∀ c ∈ cleanTitleForFileName (str "Foo/Bar (RCE) Remote Code Execution!!"),
        (48 ≤ c ∧ c ≤ 57) ∨ (65 ≤ c ∧ c ≤ 90) ∨ (97 ≤ c ∧ c ≤ 122) ∨ c = 95) :=
  ⟨by decide, (cleanTitleForFileName_charset _).1⟩

/-- C10: `cleanTitleForFileName` is idempotent. -/
theorem cleanTitleForFileName_idempotent (title : GoString) :
    cleanTitleForFileName (cleanTitleForFileName title) = cleanTitleForFileName title := by
  have hw := cleanTitle_word title
  have hd := cleanTitle_noDouble title
  have hh : (cleanTitleForFileName title).head? ≠ some 95 := Trim_head _ 95
  have hl : (cleanTitleForFileName title).getLast? ≠ some 95 := Trim_getLast _ 95
  have hsp : 32 ∉ cleanTitleForFileName title := by
    intro h
    have := hw _ h
    unfold isWord at this
    omega
  have hpar : 40 ∉ cleanTitleForFileName title := by
    intro h
    have := hw _ h
    unfold isWord at this
    omega
  generalize cleanTitleForFileName title = r at hw hd hh hl hsp hpar
  have h1 : ReplaceAll r (str "Remote Code Execution") (str "") = r :=
    replaceFrom_absent _ _ 32 (by decide) r hsp
  have h2 : ReplaceAll r (str "(RCE)") (str "") = r :=
    replaceFrom_absent _ _ 40 (by decide) r hpar
  unfold cleanTitleForFileName
  simp only [h1, h2]
  unfold ReplaceAllString
  rw [replaceRuns_fixed r false hw hd (by simp), Trim_fixed r 95 hh hl]

/-! ## Facts about substring search and lower-casing -/

theorem Contains_iff (s substr : GoString) : Contains s substr = true ↔ substr <:+: s := by
  induction s with
  | nil =>
    cases substr <;> simp [Contains]
  | cons c t ih =>
    rw [Contains, Bool.or_eq_true, ih, List.infix_cons_iff, List.isPrefixOf_iff_prefix]

theorem ToLower_RCE (mapLower : GoString → GoString) :
    ToLower mapLower (str "RCE") = str "rce" := rfl

theorem ToLower_RemoteCodeExecution (mapLower : GoString → GoString) :
    ToLower mapLower (str "Remote Code Execution") = str "remote code execution" := rfl

/-- C3: `isRCEEntry` is true exactly when the lower-cased title or the lower-cased
description contains `"rce"` or `"remote code execution"`. -/
theorem isRCEEntry_iff (mapLower : GoString → GoString) (entry : Item) :
    isRCEEntry mapLower entry = true ↔
      ((str "rce" <:+: ToLower mapLower entry.Title ∨
          str "remote code execution" <:+: ToLower mapLower entry.Title) ∨
        (str "rce" <:+: ToLower mapLower entry.Description ∨
          str "remote code execution" <:+: ToLower mapLower entry.Description)) := by
  unfold isRCEEntry rceKeywords
  simp only [List.any_cons, List.any_nil, Bool.or_false, Bool.or_eq_true, Contains_iff,
    ToLower_RCE, ToLower_RemoteCodeExecution]
  tauto

theorem ToLower_ascii (mapLower : GoString → GoString) (s : GoString)
    (h : ∀ c ∈ s, c < 128) : ToLower mapLower s = s.map lowerByte := by
  have hall : s.all (fun c => decide (c < 128)) = true := by
    rw [List.all_eq_true]
    intro c hc
    simpa using h c hc
  unfold ToLower
  simp only [hall, if_true]
  split
  · rename_i hu
    have hc2 : ∀ x ∈ s, ¬ (65 ≤ x ∧ x ≤ 90) := by simpa using hu
    symm
    calc s.map lowerByte = s.map id :=
          List.map_congr_left (fun c hc => by simp [lowerByte, hc2 c hc])
      _ = s := List.map_id s
  · rfl

/-! ## Extension sniffing -/

theorem determineFileExtension_some (content : GoString) :
    determineFileExtension (some content) =
      if PythonMarkers content then str ".py"
      else if CMarkers content then str ".c"
      else if GoMarkers content then str ".go"
      else if BashMarkers content then str ".sh"
      else if PerlMarkers content then str ".pl"
      else str ".txt" := by
  unfold determineFileExtension PythonMarkers CMarkers GoMarkers BashMarkers PerlMarkers
  simp only [Bool.and_eq_true, Bool.or_eq_true, Contains_iff]

theorem bash_shebang_has_bash (content : GoString) (h : str "#!/bin/bash" <:+: content) :
    str "bash" <:+: content :=
  List.IsInfix.trans (by decide : str "bash" <:+: str "#!/bin/bash") h

/-- C5, as stated, fails: a C file that also holds `import ` and `def ` (here inside
`undef X`) is taken for Python, because the Python test comes first. -/
theorem determineFileExtension_c_counterexample :
    str "#include" <:+: str "#include <a.h> /* import undef X */ int main()" ∧
      str "int main" <:+: str "#include <a.h> /* import undef X */ int main()" ∧
      determineFileExtension (some (str "#include <a.h> /* import undef X */ int main()"))
        = str ".py" ∧
      determineFileExtension (some (str "#include <a.h> /* import undef X */ int main()"))
        ≠ str ".c" := by
  refine ⟨(Contains_iff _ _).mp (by decide), (Contains_iff _ _).mp (by decide), ?_, ?_⟩ <;>
    decide

/-- C5, amended: a readable content that contains `#include` and `int main`, and does not
contain both `import ` and `def `, gets the extension `.c`. -/
theorem determineFileExtension_c (content : GoString)
    (hinc : str "#include" <:+: content) (hmain : str "int main" <:+: content)
    (hpy : ¬ (str "import " <:+: content ∧ str "def " <:+: content)) :
    determineFileExtension (some content) = str ".c" := by
  rw [determineFileExtension_some, if_neg hpy, if_pos ⟨hinc, hmain⟩]

/-- C5, amended, at `"#include <stdio.h> int main()"`. -/
theorem determineFileExtension_c_witness :
    determineFileExtension (some (str "#include <stdio.h> int main()")) = str ".c" :=
  determineFileExtension_c (str "#include <stdio.h> int main()")
    ((Contains_iff _ _).mp (by decide)) ((Contains_iff _ _).mp (by decide))
    (fun h => absurd ((Contains_iff _ _).mpr h.1) (by decide))

/-- C6, as stated, fails: a Go file that holds `import ` and `def ` is taken for Python,
and one that holds `#include` and `int main` is taken for C. -/
theorem determineFileExtension_go_counterexample :
    str "package main" <:+: str "package main import fmt // def value" ∧
      determineFileExtension (some (str "package main import fmt // def value"))
        = str ".py" ∧
      str "package main" <:+: str "package main // #include int main" ∧
      determineFileExtension (some (str "package main // #include int main"))
        = str ".c" := by
  refine ⟨(Contains_iff _ _).mp (by decide), ?_, (Contains_iff _ _).mp (by decide), ?_⟩ <;>
    decide

/-- C6, amended: a readable content that contains `package main`, does not contain both
`import ` and `def `, and does not contain both `#include` and `int main`, gets the
extension `.go`. -/
theorem determineFileExtension_go (content : GoString)
    (hpkg : str "package main" <:+: content)
    (hpy : ¬ (str "import " <:+: content ∧ str "def " <:+: content))
    (hc : ¬ (str "#include" <:+: content ∧ str "int main" <:+: content)) :
    determineFileExtension (some content) = str ".go" := by
  rw [determineFileExtension_some, if_neg hpy, if_neg hc, if_pos (Or.inl hpkg)]

/-- C6, amended, at `"package main func main()"`. -/
theorem determineFileExtension_go_witness :
    determineFileExtension (some (str "package main func main()")) = str ".go" :=
  determineFileExtension_go (str "package main func main()")
    ((Contains_iff _ _).mp (by decide))
    (fun h => absurd ((Contains_iff _ _).mpr h.1) (by decide))
    (fun h => absurd ((Contains_iff _ _).mpr h.1) (by decide))

/-- C7: the tests run in the order Python, C, Go, Bash, Perl and the first one that matches
decides; a content that matches none of them, in particular one that holds none of the
eight marker substrings, gets `.txt`, and so does a file that cannot be read. -/
theorem determineFileExtension_priority (content : GoString) :
    determineFileExtension none = str ".txt" ∧
      (PythonMarkers content → determineFileExtension (some content) = str ".py") ∧
      (¬ PythonMarkers content → CMarkers content →
        determineFileExtension (some content) = str ".c") ∧
      (¬ PythonMarkers content → ¬ CMarkers content → GoMarkers content →
        determineFileExtension (some content) = str ".go") ∧
      (¬ PythonMarkers content → ¬ CMarkers content → ¬ GoMarkers content →
        BashMarkers content → determineFileExtension (some content) = str ".sh") ∧
      (¬ PythonMarkers content → ¬ CMarkers content → ¬ GoMarkers content →
        ¬ BashMarkers content → PerlMarkers content →
        determineFileExtension (some content) = str ".pl") ∧
      (¬ PythonMarkers content → ¬ CMarkers content → ¬ GoMarkers content →
        ¬ BashMarkers content → ¬ PerlMarkers content →
        determineFileExtension (some content) = str ".txt") ∧
      (¬ str "import " <:+: content → ¬ str "def " <:+: content →
        ¬ str "#include" <:+: content → ¬ str "int main" <:+: content →
        ¬ str "package main" <:+: content → ¬ str "func main" <:+: content →
        ¬ str "bash" <:+: content → ¬ str "#!/usr/bin/perl" <:+: content →
        determineFileExtension (some content) = str ".txt") := by
  rw [determineFileExtension_some]
  refine ⟨rfl, ?_, ?_, ?_, ?_, ?_, ?_, ?_⟩
  · intro h; rw [if_pos h]
  · intro h1 h2; rw [if_neg h1, if_pos h2]
  · intro h1 h2 h3; rw [if_neg h1, if_neg h2, if_pos h3]
  · intro h1 h2 h3 h4; rw [if_neg h1, if_neg h2, if_neg h3, if_pos h4]
  · intro h1 h2 h3 h4 h5; rw [if_neg h1, if_neg h2, if_neg h3, if_neg h4, if_pos h5]
  · intro h1 h2 h3 h4 h5; rw [if_neg h1, if_neg h2, if_neg h3, if_neg h4, if_neg h5]
  · intro h1 _ h3 _ h5 h6 h7 h8
    rw [if_neg (fun h => h1 h.1), if_neg (fun h => h3 h.1),
      if_neg (fun h => h.elim h5 h6),
      if_neg (fun h => h.elim (fun hb => h7 (bash_shebang_has_bash content hb)) h7),
      if_neg h8]

/-- C7 at a C file without Python markers (the second test decides) and at a plain text
that holds none of the eight markers. -/
theorem determineFileExtension_priority_witness :
    determineFileExtension (some (str "#include <stdio.h> int main()")) = str ".c" ∧
      determineFileExtension (some (str "plain text notes")) = str ".txt" :=
  ⟨(determineFileExtension_priority (str "#include <stdio.h> int main()")).2.2.1
      (fun h => absurd ((Contains_iff _ _).mpr h.1) (by decide))
      ⟨(Contains_iff _ _).mp (by decide), (Contains_iff _ _).mp (by decide)⟩,
    (determineFileExtension_priority (str "plain text notes")).2.2.2.2.2.2.2
      (fun h => absurd ((Contains_iff _ _).mpr h) (by decide))
      (fun h => absurd ((Contains_iff _ _).mpr h) (by decide))
      (fun h => absurd ((Contains_iff _ _).mpr h) (by decide))
      (fun h => absurd ((Contains_iff _ _).mpr h) (by decide))
      (fun h => absurd ((Contains_iff _ _).mpr h) (by decide))
      (fun h => absurd ((Contains_iff _ _).mpr h) (by decide))
      (fun h => absurd ((Contains_iff _ _).mpr h) (by decide))
      (fun h => absurd ((Contains_iff _ _).mpr h) (by decide))⟩

/-! ## Recency window of download mode -/

/-- C8: `isFromLastTwelveMonths` is true exactly when `Published` parses under RFC1123Z or,
that failing, under RFC1123, and the parsed instant lies strictly after `now` minus twelve
months and strictly before `now`; a date that parses under neither layout gives `false`. -/
theorem isFromLastTwelveMonths_iff (parse : GoString → GoString → Option Time)
    (addDate : Time → Int → Int → Int → Time) (now : Time) (entry : Item) :
    (isFromLastTwelveMonths parse addDate now entry = true ↔
      ∃ t : Time,
        (parse RFC1123Z entry.Published = some t ∨
          (parse RFC1123Z entry.Published = none ∧ parse RFC1123 entry.Published = some t)) ∧
        (addDate now 0 (-12) 0).unixNano < t.unixNano ∧ t.unixNano < now.unixNano) ∧
      (parse RFC1123Z entry.Published = none → parse RFC1123 entry.Published = none →
        isFromLastTwelveMonths parse addDate now entry = false) := by
  unfold isFromLastTwelveMonths
  cases h1 : parse RFC1123Z entry.Published with
  | some t1 =>
    simp [Time.After, Time.Before]
  | none =>
    cases h2 : parse RFC1123 entry.Published with
    | none => simp
    | some t2 => simp [Time.After, Time.Before]

/-- C8 at concrete dates, with `now` = 2 November 2026 (UTC): a date that parses under the
second layout only and lies one month back is accepted, and a date that parses under
neither layout is rejected. -/
theorem isFromLastTwelveMonths_iff_witness :
    isFromLastTwelveMonths
        (parseTable [(RFC1123, str "Fri, 02 Oct 2026 00:00:00 UTC", utcDate 2026 10 2)])
        addDateUTC (utcDate 2026 11 2) (sampleEntry (str "Fri, 02 Oct 2026 00:00:00 UTC"))
        = true ∧
      isFromLastTwelveMonths
        (parseTable [(RFC1123, str "Fri, 02 Oct 2026 00:00:00 UTC", utcDate 2026 10 2)])
        addDateUTC (utcDate 2026 11 2) (sampleEntry (str "yesterday")) = false :=
  ⟨(isFromLastTwelveMonths_iff _ addDateUTC (utcDate 2026 11 2)
      (sampleEntry (str "Fri, 02 Oct 2026 00:00:00 UTC"))).1.mpr
      ⟨utcDate 2026 10 2, Or.inr ⟨by decide, by decide⟩, by decide, by decide⟩,
    (isFromLastTwelveMonths_iff _ addDateUTC (utcDate 2026 11 2)
      (sampleEntry (str "yesterday"))).2 (by decide) (by decide)⟩

/-! ## Report mode -/

theorem fetchLoop_mem (mapLower : GoString → GoString) (oneYearAgo : Time) :
    ∀ (items : List Item) (acc : List Vulnerability) (v : Vulnerability),
      v ∈ fetchLoop mapLower oneYearAgo items acc ↔
        v ∈ acc ∨ ∃ item ∈ items, reportKeeps mapLower oneYearAgo item ∧ v = reportRow item := by
  intro items
  induction items with
  | nil => intro acc v; simp [fetchLoop]
  | cons item rest ih =>
    intro acc v
    have hdate : (match item.PublishedParsed with
        | none => false
        | some published => published.After oneYearAgo) = true ↔
        ∃ published, item.PublishedParsed = some published ∧
          oneYearAgo.unixNano < published.unixNano := by
      cases item.PublishedParsed <;> simp [Time.After]
    unfold fetchLoop
    by_cases h1 : (match item.PublishedParsed with
        | none => false
        | some published => published.After oneYearAgo) = true
    · rw [if_pos h1]
      by_cases h2 : (Contains (ToLower mapLower item.Title) (str "remote code execution")
          || Contains (ToLower mapLower item.Description) (str "rce")) = true
      · rw [if_pos h2, ih]
        have hk : reportKeeps mapLower oneYearAgo item :=
          ⟨hdate.mp h1, by simpa [Contains_iff] using h2⟩
        simp only [List.mem_append, List.mem_singleton, List.mem_cons, exists_eq_or_imp,
          List.not_mem_nil, or_false]
        change (_ ∨ v = reportRow item) ∨ _ ↔ _
        constructor
        · rintro ((h | h) | h)
          · exact Or.inl h
          · exact Or.inr (Or.inl ⟨hk, h⟩)
          · exact Or.inr (Or.inr h)
        · rintro (h | ⟨_, h⟩ | h)
          · exact Or.inl (Or.inl h)
          · exact Or.inl (Or.inr h)
          · exact Or.inr h
      · rw [if_neg h2, ih]
        have hk : ¬ reportKeeps mapLower oneYearAgo item := by
          intro hk
          exact h2 (by simpa [Contains_iff] using hk.2)
        simp only [List.mem_cons, exists_eq_or_imp]
        tauto
    · rw [if_neg h1, ih]
      have hk : ¬ reportKeeps mapLower oneYearAgo item := fun hk => h1 (hdate.mpr hk.1)
      simp only [List.mem_cons, exists_eq_or_imp]
      tauto

/-- The rows that `fetchExploits` returns are exactly the rows of the items with a parsed
publish date after `now` minus one year whose lower-cased title contains
`remote code execution` or whose lower-cased description contains `rce`. -/
theorem fetchExploits_rows (mapLower : GoString → GoString)
    (addDate : Time → Int → Int → Int → Time) (now : Time) (items : List Item) :
    ∃ vulns, fetchExploits mapLower addDate now (some items) = some vulns ∧
      ∀ v, v ∈ vulns ↔
        ∃ item ∈ items, reportKeeps mapLower (addDate now (-1) 0 0) item ∧ v = reportRow item := by
  refine ⟨_, rfl, fun v => ?_⟩
  rw [fetchLoop_mem]
  simp

/-- C2 on the code, with `now` = 2 November 2026: an item whose title contains `RCE` and
that was published one month ago, inside the twelve-month window, is left out of the
report, although the download-mode test `isRCEEntry` accepts it; and an item dated after
`now`, outside the window, is put into the report. -/
theorem fetchExploits_misses_title_abbreviation :
    str "rce" <:+: ToLower id abbreviatedItem.Title ∧
      (addDateUTC (utcDate 2026 11 2) (-1) 0 0).unixNano < (utcDate 2026 10 2).unixNano ∧
      (utcDate 2026 10 2).unixNano < (utcDate 2026 11 2).unixNano ∧
      isRCEEntry id abbreviatedItem = true ∧
      fetchExploits id addDateUTC (utcDate 2026 11 2) (some [abbreviatedItem]) = some [] ∧
      (utcDate 2026 11 2).unixNano < (utcDate 2026 12 2).unixNano ∧
      fetchExploits id addDateUTC (utcDate 2026 11 2) (some [futureItem])
        = some [reportRow futureItem] := by
  refine ⟨(Contains_iff _ _).mp (by decide), ?_, ?_, ?_, ?_, ?_, ?_⟩ <;> decide

theorem readMoreAnchor_length (link : GoString) :
    (readMoreAnchor link).length = link.length + 44 := by
  unfold readMoreAnchor
  rw [List.length_append, List.length_append]
  have h1 : (str "<br><a href=\"").length = 13 := by decide
  have h2 : (str "\" target=\"_blank\">Read more</a>").length = 31 := by decide
  omega

/-- The part of the description rule that the code keeps: a description of 50 bytes or
more with a non-empty link is returned with the anchor appended. -/
theorem getDetailedDescription_long (item : Item) (hlen : 50 ≤ item.Description.length)
    (hlink : item.Link ≠ str "") :
    getDetailedDescription item = item.Description ++ readMoreAnchor item.Link := by
  unfold getDetailedDescription
  simp only [if_pos hlink]
  rw [if_neg]
  rw [List.length_append]
  omega

/-- With a non-empty link the fallback text is chosen only when description and link
together have fewer than 6 bytes. -/
theorem getDetailedDescription_linked (item : Item) (hlink : item.Link ≠ str "") :
    getDetailedDescription item =
      if item.Description.length + item.Link.length < 6 then fallbackDescription
      else item.Description ++ readMoreAnchor item.Link := by
  unfold getDetailedDescription
  simp only [if_pos hlink, List.length_append, readMoreAnchor_length]
  by_cases h : item.Description.length + item.Link.length < 6
  · rw [if_pos h, if_pos (by omega)]
  · rw [if_neg h, if_neg (by omega)]

/-- C4 on the code: for a description of 18 bytes with a link, the result is the short
description followed by the anchor, not the fallback text. -/
theorem getDetailedDescription_short_with_link :
    shortItem.Description.length = 18 ∧
      getDetailedDescription shortItem =
        str "Short description.<br><a href=\"https://www.exploit-db.com/exploits/51234\" target=\"_blank\">Read more</a>" ∧
      getDetailedDescription shortItem ≠ fallbackDescription := by
  refine ⟨?_, ?_, ?_⟩ <;> decide

/-! ## Link extraction -/

theorem scanAnchors_eq (fragment baseURL : GoString) :
    ∀ (anchors : List (Option GoString)) (links : List GoString),
      scanAnchors fragment baseURL anchors links =
        links ++ ((anchors.filterMap id).filter (fun href => Contains href fragment)).map
          (fun href => baseURL ++ href) := by
  intro anchors
  induction anchors with
  | nil => intro links; simp [scanAnchors]
  | cons a rest ih =>
    intro links
    cases a with
    | none => simp [scanAnchors, ih]
    | some href =>
      unfold scanAnchors
      by_cases h : Contains href fragment = true
      · simp [h, ih]
      · simp [h, ih]

/-- C9 on the code: an `href` that is already an absolute URL gets the base URL prepended,
in both extractors. -/
theorem extract_prepends_base_to_absolute_href :
    extractExploitDBLink (some [some (str "https://www.exploit-db.com/download/51234")]) =
        [str "https://www.exploit-db.comhttps://www.exploit-db.com/download/51234"] ∧
      extractPacketStormLink
          (some [some (str "https://packetstormsecurity.com/files/download/1/x.txt")]) =
        [str "https://packetstormsecurity.comhttps://packetstormsecurity.com/files/download/1/x.txt"] := by
  refine ⟨?_, ?_⟩ <;> decide

end WhatMatters
